import Mathlib

/-!
Shallow embedding, in exact real arithmetic, of the star-finder kernel
constructor `_StarFinderKernel.__init__` from
`src/photutils/detection/_utils.py`.

Floats are modelled by `ℝ`; numpy arrays over the `(ny, nx)` grid are
modelled by total functions `ℕ → ℕ → ℝ` (row `y`, column `x`), with sums taken
over `Finset.range ny ×ˢ Finset.range nx`.  The constructor is modelled as a
function into a three-way result `BuildResult`:

* `ok k` — construction completes with a finite, exactly-representable-in-`ℝ`
  payload; this is the path taken by every validated parameter set with
  `fwhm > 0`.
* `nanKernel` — construction also completes normally, but with a NaN-filled
  floating-point payload.  The scalars in the source are numpy `float64`
  (`gaussian_fwhm_to_sigma`, `np.cos`, `np.sin` all return `np.float64`), so
  the divisions by `2.0 * xsigma2 = 0` and `2.0 * ysigma2 = 0` that occur
  when `fwhm = 0` only emit `RuntimeWarning`s and propagate `inf`/`nan`;
  `math.sqrt(nan)` is `nan`, `max(2, nan) = 2` gives a `5 × 5` grid, the
  NaN comparisons leave the 13-pixel circular mask, and `__init__` returns
  normally with an all-NaN `data` array.  NaN is not a real number, so this
  completed-but-poisoned outcome is recorded by a distinguished constructor
  rather than by a `Kernel` value.
* `error e` — a Python exception: one of the three `ValueError`s of the
  validation block, the only exceptions the constructor can actually raise.
-/

namespace Photutils

noncomputable section

open Finset

/-- The input parameters of `_StarFinderKernel.__init__`. -/
structure Params where
  fwhm : ℝ
  ratio : ℝ
  theta : ℝ
  sigma_radius : ℝ
  normalize_zerosum : Bool

/-- Error kinds.  The three `valueError_*` constructors model the `ValueError`s
of the validation block — the only exceptions `__init__` can raise.  The last
two exist only so that claims about them can be stated: `zeroDivisionError`
is never produced (the scalars are numpy `float64`, whose division by zero
warns and propagates `inf`/`nan` instead of raising), and `degenerateKernel`
models the spec's `DegenerateKernelError`, which the source neither defines
nor raises. -/
inductive KernelError where
  | valueError_fwhm
  | valueError_ratio
  | valueError_sigma_radius
  | zeroDivisionError
  | degenerateKernel
deriving DecidableEq

/-- `astropy.stats.gaussian_fwhm_to_sigma = 1 / (2 * sqrt(2 * ln 2))`. -/
def gaussian_fwhm_to_sigma : ℝ := 1 / (2 * Real.sqrt (2 * Real.log 2))

/-- `self.xsigma = self.fwhm * gaussian_fwhm_to_sigma`. -/
def xsigma (p : Params) : ℝ := p.fwhm * gaussian_fwhm_to_sigma

/-- `self.ysigma = self.xsigma * self.ratio`. -/
def ysigma (p : Params) : ℝ := xsigma p * p.ratio

/-- `theta_radians = np.deg2rad(self.theta)`. -/
def theta_radians (p : Params) : ℝ := p.theta * (Real.pi / 180)

/-- `cost = np.cos(theta_radians)`. -/
def cost (p : Params) : ℝ := Real.cos (theta_radians p)

/-- `sint = np.sin(theta_radians)`. -/
def sint (p : Params) : ℝ := Real.sin (theta_radians p)

/-- `xsigma2 = self.xsigma**2`. -/
def xsigma2 (p : Params) : ℝ := xsigma p ^ 2

/-- `ysigma2 = self.ysigma**2`. -/
def ysigma2 (p : Params) : ℝ := ysigma p ^ 2

/-- `self.a = (cost**2 / (2.0 * xsigma2)) + (sint**2 / (2.0 * ysigma2))`. -/
def a (p : Params) : ℝ :=
  cost p ^ 2 / (2 * xsigma2 p) + sint p ^ 2 / (2 * ysigma2 p)

/-- `self.b = 0.5 * cost * sint * ((1.0 / xsigma2) - (1.0 / ysigma2))`. -/
def b (p : Params) : ℝ :=
  0.5 * cost p * sint p * (1 / xsigma2 p - 1 / ysigma2 p)

/-- `self.c = (sint**2 / (2.0 * xsigma2)) + (cost**2 / (2.0 * ysigma2))`. -/
def c (p : Params) : ℝ :=
  sint p ^ 2 / (2 * xsigma2 p) + cost p ^ 2 / (2 * ysigma2 p)

/-- `self.f = self.sigma_radius**2 / 2.0`. -/
def f (p : Params) : ℝ := p.sigma_radius ^ 2 / 2

/-- The first local `denom = (self.a * self.c) - self.b**2` (ellipse form). -/
def ell_denom (p : Params) : ℝ := a p * c p - b p ^ 2

/-- `self.nx = 2 * int(max(2, math.sqrt(self.c * self.f / denom))) + 1`.
The argument of `int` is `≥ 2 > 0`, so Python truncation is `Int.floor`. -/
def nx (p : Params) : ℕ :=
  2 * (⌊max 2 (Real.sqrt (c p * f p / ell_denom p))⌋).toNat + 1

/-- `self.ny = 2 * int(max(2, math.sqrt(self.a * self.f / denom))) + 1`. -/
def ny (p : Params) : ℕ :=
  2 * (⌊max 2 (Real.sqrt (a p * f p / ell_denom p))⌋).toNat + 1

/-- `self.xc = self.xradius = self.nx // 2`. -/
def xc (p : Params) : ℕ := nx p / 2

/-- `self.yc = self.yradius = self.ny // 2`. -/
def yc (p : Params) : ℕ := ny p / 2

/-- `self.circular_radius = np.sqrt((xx - self.xc)**2 + (yy - self.yc)**2)`. -/
def circular_radius (p : Params) (y x : ℕ) : ℝ :=
  Real.sqrt (((x : ℝ) - (xc p : ℝ)) ^ 2 + ((y : ℝ) - (yc p : ℝ)) ^ 2)

/-- `self.elliptical_radius = a*(xx-xc)**2 + 2*b*(xx-xc)*(yy-yc) + c*(yy-yc)**2`. -/
def elliptical_radius (p : Params) (y x : ℕ) : ℝ :=
  a p * ((x : ℝ) - (xc p : ℝ)) ^ 2
    + 2 * b p * ((x : ℝ) - (xc p : ℝ)) * ((y : ℝ) - (yc p : ℝ))
    + c p * ((y : ℝ) - (yc p : ℝ)) ^ 2

open Classical in
/-- `self.mask = np.where((elliptical_radius <= f) | (circular_radius <= 2.0), 1, 0)`. -/
def mask (p : Params) (y x : ℕ) : ℕ :=
  if elliptical_radius p y x ≤ f p ∨ circular_radius p y x ≤ 2 then 1 else 0

/-- `self.npixels = self.mask.sum()`. -/
def npixels (p : Params) : ℕ :=
  ∑ y ∈ range (ny p), ∑ x ∈ range (nx p), mask p y x

/-- `self.gaussian_kernel_unmasked = np.exp(-self.elliptical_radius)`. -/
def gaussian_kernel_unmasked (p : Params) (y x : ℕ) : ℝ :=
  Real.exp (-(elliptical_radius p y x))

/-- `self.gaussian_kernel = self.gaussian_kernel_unmasked * self.mask`. -/
def gaussian_kernel (p : Params) (y x : ℕ) : ℝ :=
  gaussian_kernel_unmasked p y x * (mask p y x : ℝ)

/-- `self.gaussian_kernel.sum()`. -/
def gksum (p : Params) : ℝ :=
  ∑ y ∈ range (ny p), ∑ x ∈ range (nx p), gaussian_kernel p y x

/-- `(self.gaussian_kernel**2).sum()`. -/
def gk2sum (p : Params) : ℝ :=
  ∑ y ∈ range (ny p), ∑ x ∈ range (nx p), gaussian_kernel p y x ^ 2

/-- The second local `denom`, the variance term:
`(gaussian_kernel**2).sum() - gaussian_kernel.sum()**2 / npixels`. -/
def var_denom (p : Params) : ℝ :=
  gk2sum p - gksum p ^ 2 / (npixels p : ℝ)

/-- `self.relerr = 1.0 / np.sqrt(denom)`. -/
def relerr (p : Params) : ℝ := 1 / Real.sqrt (var_denom p)

/-- `self.data`: if `normalize_zerosum` then
`((gaussian_kernel - gaussian_kernel.sum()/npixels) / denom) * mask`
else `gaussian_kernel`. -/
def data (p : Params) (y x : ℕ) : ℝ :=
  if p.normalize_zerosum then
    (gaussian_kernel p y x - gksum p / (npixels p : ℝ)) / var_denom p
      * (mask p y x : ℝ)
  else gaussian_kernel p y x

/-- The attributes of a successfully constructed `_StarFinderKernel` that the
claims speak about. -/
structure Kernel where
  nx : ℕ
  ny : ℕ
  xc : ℕ
  yc : ℕ
  circular_radius : ℕ → ℕ → ℝ
  elliptical_radius : ℕ → ℕ → ℝ
  mask : ℕ → ℕ → ℕ
  npixels : ℕ
  gaussian_kernel_unmasked : ℕ → ℕ → ℝ
  gaussian_kernel : ℕ → ℕ → ℝ
  relerr : ℝ
  data : ℕ → ℕ → ℝ
  shape : ℕ × ℕ

/-- The kernel object produced when no exception is raised. -/
def mkKernel (p : Params) : Kernel where
  nx := nx p
  ny := ny p
  xc := xc p
  yc := yc p
  circular_radius := circular_radius p
  elliptical_radius := elliptical_radius p
  mask := mask p
  npixels := npixels p
  gaussian_kernel_unmasked := gaussian_kernel_unmasked p
  gaussian_kernel := gaussian_kernel p
  relerr := relerr p
  data := data p
  shape := (ny p, nx p)

/-- The outcome of running `_StarFinderKernel.__init__`: normal completion
with a finite payload (`ok`), normal completion with a NaN-poisoned
floating-point payload (`nanKernel`), or a raised exception (`error`). -/
inductive BuildResult where
  | ok (k : Kernel)
  | nanKernel
  | error (e : KernelError)

open Classical in
/-- `_StarFinderKernel.__init__`.  The three explicit `ValueError` checks
come first, in source order.  After them, no operation raises: if
`xsigma2 = 0` or `ysigma2 = 0` (after validation, exactly when `fwhm = 0`),
the numpy `float64` divisions by `2.0 * xsigma2` and `2.0 * ysigma2` in the
coefficients `a`, `b`, `c` warn and propagate `inf`/`nan`, every downstream
float is NaN, and construction completes with a NaN-filled payload
(`nanKernel`).  Otherwise `xsigma2, ysigma2 > 0`, and in exact arithmetic
the remaining operations are total and finite — `denom = a*c - b^2 =
1/(4*xsigma2*ysigma2) > 0` (proved in `ell_denom_eq`), so the `math.sqrt`
arguments are nonnegative — and the kernel object is returned. -/
def buildKernel (p : Params) : BuildResult :=
  if p.fwhm < 0 then .error .valueError_fwhm
  else if p.ratio ≤ 0 ∨ 1 < p.ratio then .error .valueError_ratio
  else if p.sigma_radius ≤ 0 then .error .valueError_sigma_radius
  else if xsigma2 p = 0 ∨ ysigma2 p = 0 then .nanKernel
  else .ok (mkKernel p)

/-- The four input constraints of the source's validation block. -/
def validParams (p : Params) : Prop :=
  0 ≤ p.fwhm ∧ 0 < p.ratio ∧ p.ratio ≤ 1 ∧ 0 < p.sigma_radius

/-! ### Positivity of the derived scalar quantities -/

lemma gaussian_fwhm_to_sigma_pos : 0 < gaussian_fwhm_to_sigma := by
  unfold gaussian_fwhm_to_sigma
  have h2 : (0:ℝ) < 2 * Real.log 2 := by
    have := Real.log_pos (by norm_num : (1:ℝ) < 2)
    linarith
  positivity

lemma xsigma_pos {p : Params} (hf : 0 < p.fwhm) : 0 < xsigma p :=
  mul_pos hf gaussian_fwhm_to_sigma_pos

lemma xsigma2_pos {p : Params} (hf : 0 < p.fwhm) : 0 < xsigma2 p :=
  pow_pos (xsigma_pos hf) 2

lemma ysigma2_pos {p : Params} (hf : 0 < p.fwhm) (hr : 0 < p.ratio) :
    0 < ysigma2 p :=
  pow_pos (mul_pos (xsigma_pos hf) hr) 2

lemma sin2_add_cos2 (p : Params) : sint p ^ 2 + cost p ^ 2 = 1 :=
  Real.sin_sq_add_cos_sq (theta_radians p)

lemma f_pos {p : Params} (hs : 0 < p.sigma_radius) : 0 < f p := by
  unfold f; positivity

/-- The ellipse-form discriminant collapses:
`a*c - b^2 = 1 / (4 * xsigma2 * ysigma2)`. -/
lemma ell_denom_eq {p : Params} (hx : xsigma2 p ≠ 0) (hy : ysigma2 p ≠ 0) :
    ell_denom p = 1 / (4 * xsigma2 p * ysigma2 p) := by
  have h := sin2_add_cos2 p
  unfold ell_denom a b c
  field_simp
  linear_combination
    (16 * xsigma2 p ^ 4 * ysigma2 p ^ 4 * (sint p ^ 2 + cost p ^ 2 + 1)) * h

lemma a_add_c {p : Params} (hx : xsigma2 p ≠ 0) (hy : ysigma2 p ≠ 0) :
    a p + c p = 1 / (2 * xsigma2 p) + 1 / (2 * ysigma2 p) := by
  have h := sin2_add_cos2 p
  unfold a c
  field_simp
  linear_combination (2 * xsigma2 p + 2 * ysigma2 p) * h

lemma ell_denom_pos {p : Params} (hf : 0 < p.fwhm) (hr : 0 < p.ratio) :
    0 < ell_denom p := by
  have hx := xsigma2_pos hf
  have hy := ysigma2_pos hf hr
  rw [ell_denom_eq hx.ne' hy.ne']
  positivity

lemma a_pos {p : Params} (hf : 0 < p.fwhm) (hr : 0 < p.ratio) : 0 < a p := by
  have hx := xsigma2_pos hf
  have hy := ysigma2_pos hf hr
  have hd := ell_denom_pos hf hr
  have hsum : 0 < a p + c p := by
    rw [a_add_c hx.ne' hy.ne']; positivity
  have hprod : 0 < a p * c p := by
    have : 0 < a p * c p - b p ^ 2 := hd
    nlinarith [sq_nonneg (b p)]
  nlinarith

lemma c_pos {p : Params} (hf : 0 < p.fwhm) (hr : 0 < p.ratio) : 0 < c p := by
  have hx := xsigma2_pos hf
  have hy := ysigma2_pos hf hr
  have hd := ell_denom_pos hf hr
  have hsum : 0 < a p + c p := by
    rw [a_add_c hx.ne' hy.ne']; positivity
  have hprod : 0 < a p * c p := by
    have : 0 < a p * c p - b p ^ 2 := hd
    nlinarith [sq_nonneg (b p)]
  nlinarith

/-! ### Grid dimensions -/

lemma two_le_floor_max_two (r : ℝ) : 2 ≤ (⌊max 2 r⌋).toNat := by
  have h : (2 : ℤ) ≤ ⌊max 2 r⌋ := by
    rw [Int.le_floor]
    push_cast
    exact le_max_left 2 r
  omega

lemma five_le_nx (p : Params) : 5 ≤ nx p := by
  have := two_le_floor_max_two (Real.sqrt (c p * f p / ell_denom p))
  unfold nx
  omega

lemma five_le_ny (p : Params) : 5 ≤ ny p := by
  have := two_le_floor_max_two (Real.sqrt (a p * f p / ell_denom p))
  unfold ny
  omega

lemma odd_nx (p : Params) : Odd (nx p) :=
  ⟨(⌊max 2 (Real.sqrt (c p * f p / ell_denom p))⌋).toNat, by unfold nx; ring⟩

lemma odd_ny (p : Params) : Odd (ny p) :=
  ⟨(⌊max 2 (Real.sqrt (a p * f p / ell_denom p))⌋).toNat, by unfold ny; ring⟩

lemma nx_eq_two_xc_add_one (p : Params) : nx p = 2 * xc p + 1 := by
  obtain ⟨m, hm⟩ := odd_nx p
  unfold xc
  omega

lemma ny_eq_two_yc_add_one (p : Params) : ny p = 2 * yc p + 1 := by
  obtain ⟨m, hm⟩ := odd_ny p
  unfold yc
  omega

lemma two_le_xc (p : Params) : 2 ≤ xc p := by
  have h1 := five_le_nx p
  have h2 := nx_eq_two_xc_add_one p
  omega

lemma two_le_yc (p : Params) : 2 ≤ yc p := by
  have h1 := five_le_ny p
  have h2 := ny_eq_two_yc_add_one p
  omega

lemma xc_lt_nx (p : Params) : xc p < nx p := by
  have := nx_eq_two_xc_add_one p; omega

lemma yc_lt_ny (p : Params) : yc p < ny p := by
  have := ny_eq_two_yc_add_one p; omega

/-! ### Mask lemmas -/

lemma mask_eq_zero_or_one (p : Params) (y x : ℕ) :
    mask p y x = 0 ∨ mask p y x = 1 := by
  unfold mask
  split
  · right; rfl
  · left; rfl

lemma mask_cast_sq (p : Params) (y x : ℕ) :
    ((mask p y x : ℝ)) ^ 2 = (mask p y x : ℝ) := by
  rcases mask_eq_zero_or_one p y x with h | h <;> rw [h] <;> norm_num

/-- A pixel whose squared distance to the center is at most `4` (distance at
most `2`) is in the mask, via the circular branch of the `np.where`. -/
lemma mask_of_close {p : Params} {y x : ℕ}
    (h : ((x : ℝ) - (xc p : ℝ)) ^ 2 + ((y : ℝ) - (yc p : ℝ)) ^ 2 ≤ 4) :
    mask p y x = 1 := by
  unfold mask
  rw [if_pos]
  right
  unfold circular_radius
  calc Real.sqrt (((x : ℝ) - (xc p : ℝ)) ^ 2 + ((y : ℝ) - (yc p : ℝ)) ^ 2)
      ≤ Real.sqrt 4 := Real.sqrt_le_sqrt h
    _ = 2 := by
        rw [show (4:ℝ) = 2 ^ 2 by norm_num, Real.sqrt_sq (by norm_num : (0:ℝ) ≤ 2)]

lemma mask_center (p : Params) : mask p (yc p) (xc p) = 1 := by
  apply mask_of_close
  simp

lemma mask_right_of_center (p : Params) : mask p (yc p) (xc p + 1) = 1 := by
  apply mask_of_close
  push_cast
  ring_nf
  norm_num

/-- The value of the elliptical quadratic form one pixel to the right of the
center is the coefficient `a`. -/
lemma elliptical_radius_right_of_center (p : Params) :
    elliptical_radius p (yc p) (xc p + 1) = a p := by
  unfold elliptical_radius
  push_cast
  ring

lemma elliptical_radius_center (p : Params) :
    elliptical_radius p (yc p) (xc p) = 0 := by
  unfold elliptical_radius
  ring

lemma gaussian_kernel_unmasked_center (p : Params) :
    gaussian_kernel_unmasked p (yc p) (xc p) = 1 := by
  unfold gaussian_kernel_unmasked
  rw [elliptical_radius_center, neg_zero, Real.exp_zero]

lemma gaussian_kernel_center (p : Params) :
    gaussian_kernel p (yc p) (xc p) = 1 := by
  unfold gaussian_kernel
  rw [gaussian_kernel_unmasked_center, mask_center]
  norm_num

lemma gaussian_kernel_right_of_center (p : Params) :
    gaussian_kernel p (yc p) (xc p + 1) = Real.exp (-(a p)) := by
  unfold gaussian_kernel gaussian_kernel_unmasked
  rw [elliptical_radius_right_of_center, mask_right_of_center]
  norm_num

lemma gk_mul_mask (p : Params) (y x : ℕ) :
    gaussian_kernel p y x * (mask p y x : ℝ) = gaussian_kernel p y x := by
  unfold gaussian_kernel
  rcases mask_eq_zero_or_one p y x with h | h <;> rw [h] <;> norm_num

/-! ### Sums over the grid -/

/-- The index set of the `(ny, nx)` arrays, as pairs `(y, x)`. -/
def grid (p : Params) : Finset (ℕ × ℕ) :=
  range (ny p) ×ˢ range (nx p)

lemma npixels_eq_sum_grid (p : Params) :
    npixels p = ∑ z ∈ grid p, mask p z.1 z.2 :=
  (Finset.sum_product' ..).symm

lemma gksum_eq_sum_grid (p : Params) :
    gksum p = ∑ z ∈ grid p, gaussian_kernel p z.1 z.2 :=
  (Finset.sum_product' ..).symm

lemma gk2sum_eq_sum_grid (p : Params) :
    gk2sum p = ∑ z ∈ grid p, gaussian_kernel p z.1 z.2 ^ 2 :=
  (Finset.sum_product' ..).symm

lemma data_sum_eq_sum_grid (p : Params) :
    ∑ y ∈ range (ny p), ∑ x ∈ range (nx p), data p y x
      = ∑ z ∈ grid p, data p z.1 z.2 :=
  (Finset.sum_product' ..).symm

lemma center_mem_grid (p : Params) : (yc p, xc p) ∈ grid p := by
  unfold grid
  rw [Finset.mem_product]
  exact ⟨Finset.mem_range.mpr (yc_lt_ny p), Finset.mem_range.mpr (xc_lt_nx p)⟩

lemma right_of_center_mem_grid (p : Params) : (yc p, xc p + 1) ∈ grid p := by
  unfold grid
  rw [Finset.mem_product]
  refine ⟨Finset.mem_range.mpr (yc_lt_ny p), Finset.mem_range.mpr ?_⟩
  have h1 := nx_eq_two_xc_add_one p
  have h2 := two_le_xc p
  omega

lemma one_le_npixels (p : Params) : 1 ≤ npixels p := by
  rw [npixels_eq_sum_grid]
  have hsub : ({(yc p, xc p)} : Finset (ℕ × ℕ)) ⊆ grid p := by
    intro z hz
    rw [Finset.mem_singleton] at hz
    exact hz ▸ center_mem_grid p
  calc 1 = ∑ z ∈ ({(yc p, xc p)} : Finset (ℕ × ℕ)), mask p z.1 z.2 := by
        rw [Finset.sum_singleton]
        exact (mask_center p).symm
    _ ≤ ∑ z ∈ grid p, mask p z.1 z.2 := Finset.sum_le_sum_of_subset hsub

lemma npixels_cast_ne_zero (p : Params) : ((npixels p : ℝ)) ≠ 0 := by
  have := one_le_npixels p
  positivity

lemma sum_mask_cast (p : Params) :
    ∑ z ∈ grid p, ((mask p z.1 z.2 : ℝ)) = (npixels p : ℝ) := by
  rw [npixels_eq_sum_grid]
  push_cast
  rfl

/-! ### The variance term and the zero-sum normalization -/

/-- The variance term is the sum of the squared residuals
`gaussian_kernel - (gaussian_kernel.sum()/npixels) * mask` over the grid. -/
lemma var_denom_eq_sum (p : Params) :
    var_denom p = ∑ z ∈ grid p,
      (gaussian_kernel p z.1 z.2 - gksum p / (npixels p : ℝ) * (mask p z.1 z.2 : ℝ)) ^ 2 := by
  have hn := npixels_cast_ne_zero p
  have expand : ∀ z ∈ grid p,
      (gaussian_kernel p z.1 z.2 - gksum p / (npixels p : ℝ) * (mask p z.1 z.2 : ℝ)) ^ 2
        = gaussian_kernel p z.1 z.2 ^ 2
          - 2 * (gksum p / (npixels p : ℝ)) * gaussian_kernel p z.1 z.2
          + (gksum p / (npixels p : ℝ)) ^ 2 * (mask p z.1 z.2 : ℝ) := by
    intro z _
    have h1 := gk_mul_mask p z.1 z.2
    have h2 := mask_cast_sq p z.1 z.2
    linear_combination (-(2:ℝ) * (gksum p / (npixels p : ℝ))) * h1
      + (gksum p / (npixels p : ℝ)) ^ 2 * h2
  rw [Finset.sum_congr rfl expand]
  rw [Finset.sum_add_distrib, Finset.sum_sub_distrib, ← Finset.mul_sum,
    ← Finset.mul_sum, sum_mask_cast, ← gk2sum_eq_sum_grid, ← gksum_eq_sum_grid]
  unfold var_denom
  field_simp
  ring

/-- The variance term is strictly positive for any `fwhm > 0` and valid
`ratio`: the masked Gaussian is not constant on the mask (the center pixel has
value `1`, its right neighbour `exp(-a) < 1`). -/
lemma var_denom_pos {p : Params} (hf : 0 < p.fwhm) (hr : 0 < p.ratio) :
    0 < var_denom p := by
  rw [var_denom_eq_sum]
  have hne : ((yc p, xc p) : ℕ × ℕ) ≠ (yc p, xc p + 1) := by simp
  have hsub : ({(yc p, xc p), (yc p, xc p + 1)} : Finset (ℕ × ℕ)) ⊆ grid p := by
    intro z hz
    rcases Finset.mem_insert.mp hz with h | h
    · exact h ▸ center_mem_grid p
    · rw [Finset.mem_singleton] at h
      exact h ▸ right_of_center_mem_grid p
  have hexp : Real.exp (-(a p)) < 1 := by
    have := Real.exp_lt_exp.mpr (neg_neg_iff_pos.mpr (a_pos hf hr) : -(a p) < 0)
    rwa [Real.exp_zero] at this
  have hpair : 0 < ∑ z ∈ ({(yc p, xc p), (yc p, xc p + 1)} : Finset (ℕ × ℕ)),
      (gaussian_kernel p z.1 z.2 - gksum p / (npixels p : ℝ) * (mask p z.1 z.2 : ℝ)) ^ 2 := by
    rw [Finset.sum_pair hne]
    dsimp only
    rw [gaussian_kernel_center, gaussian_kernel_right_of_center,
      mask_center, mask_right_of_center]
    set t := gksum p / (npixels p : ℝ)
    have hlt : 0 < (1 - t * (1:ℕ)) - (Real.exp (-(a p)) - t * (1:ℕ)) := by
      push_cast
      linarith
    nlinarith [sq_nonneg ((1 - t * (1:ℕ)) + (Real.exp (-(a p)) - t * (1:ℕ))), hlt]
  calc 0 < _ := hpair
    _ ≤ _ := Finset.sum_le_sum_of_subset_of_nonneg hsub (fun z _ _ => sq_nonneg _)

/-- With the default zero-sum normalization, `data` sums exactly to `0`. -/
lemma data_sum_zero {p : Params} (hnz : p.normalize_zerosum = true) :
    ∑ z ∈ grid p, data p z.1 z.2 = 0 := by
  have hn := npixels_cast_ne_zero p
  have hterm : ∀ z ∈ grid p, data p z.1 z.2
      = (gaussian_kernel p z.1 z.2 * (mask p z.1 z.2 : ℝ)
          - gksum p / (npixels p : ℝ) * (mask p z.1 z.2 : ℝ)) / var_denom p := by
    intro z _
    unfold data
    rw [if_pos hnz]
    ring
  rw [Finset.sum_congr rfl hterm, ← Finset.sum_div, Finset.sum_sub_distrib,
    ← Finset.mul_sum, sum_mask_cast,
    Finset.sum_congr rfl (fun z _ => gk_mul_mask p z.1 z.2),
    ← gksum_eq_sum_grid, div_mul_cancel₀ _ hn, sub_self, zero_div]

/-! ### Outcome of the constructor -/

/-- For validated parameters with `fwhm > 0`, none of the runtime guards
fires and the constructor returns the kernel object. -/
lemma buildKernel_eq_ok {p : Params} (hf : 0 < p.fwhm) (hr0 : 0 < p.ratio)
    (hr1 : p.ratio ≤ 1) (hs : 0 < p.sigma_radius) :
    buildKernel p = .ok (mkKernel p) := by
  have hX := xsigma2_pos hf
  have hY := ysigma2_pos hf hr0
  have h1 : ¬ p.fwhm < 0 := not_lt.mpr hf.le
  have h2 : ¬ (p.ratio ≤ 0 ∨ 1 < p.ratio) := by
    push_neg
    exact ⟨hr0, hr1⟩
  have h3 : ¬ p.sigma_radius ≤ 0 := not_le.mpr hs
  have h4 : ¬ (xsigma2 p = 0 ∨ ysigma2 p = 0) := by
    push_neg
    exact ⟨hX.ne', hY.ne'⟩
  unfold buildKernel
  rw [if_neg h1, if_neg h2, if_neg h3, if_neg h4]

/-- For `fwhm = 0` and otherwise valid parameters, all validation checks
pass, the numpy `float64` divisions by `2.0 * xsigma2 = 0` in the
coefficients warn and propagate `inf`/`nan`, and construction completes
with a NaN-filled payload — nothing is raised. -/
lemma buildKernel_fwhm_zero {p : Params} (hf : p.fwhm = 0) (hr0 : 0 < p.ratio)
    (hr1 : p.ratio ≤ 1) (hs : 0 < p.sigma_radius) :
    buildKernel p = .nanKernel := by
  have h1 : ¬ p.fwhm < 0 := by rw [hf]; norm_num
  have h2 : ¬ (p.ratio ≤ 0 ∨ 1 < p.ratio) := by
    push_neg
    exact ⟨hr0, hr1⟩
  have h3 : ¬ p.sigma_radius ≤ 0 := not_le.mpr hs
  have h4 : xsigma2 p = 0 ∨ ysigma2 p = 0 := by
    left
    unfold xsigma2 xsigma
    rw [hf]
    ring
  unfold buildKernel
  rw [if_neg h1, if_neg h2, if_neg h3, if_pos h4]

/-- Construction produces a finite kernel object only for validated
parameters with `fwhm > 0`, and then the result is exactly `mkKernel p`. -/
lemma buildKernel_ok_elim {p : Params} {k : Kernel}
    (h : buildKernel p = .ok k) :
    validParams p ∧ 0 < p.fwhm ∧ k = mkKernel p := by
  unfold buildKernel at h
  split_ifs at h with h1 h2 h3 h4
  push_neg at h2 h4
  simp only [BuildResult.ok.injEq] at h
  have hfwhm : 0 < p.fwhm := by
    rcases lt_or_eq_of_le (not_lt.mp h1) with hlt | heq
    · exact hlt
    · exfalso
      apply h4.1
      unfold xsigma2 xsigma
      rw [← heq]
      ring
  exact ⟨⟨not_lt.mp h1, h2.1, h2.2, not_le.mp h3⟩, hfwhm, h.symm⟩

/-! ### The 13-pixel circular core of the mask -/

/-- The integer offsets `(dy, dx)` in a `5 × 5` block (shifted by `+2` so
they are naturals) whose Euclidean distance from the block center is at most
`2`.  There are exactly 13 of them. -/
def ball13 : Finset (ℕ × ℕ) :=
  (range 5 ×ˢ range 5).filter
    (fun d => ((d.1 : ℤ) - 2) ^ 2 + ((d.2 : ℤ) - 2) ^ 2 ≤ 4)

lemma ball13_card : ball13.card = 13 := by decide

/-- All 13 pixels within distance 2 of the center are in the mask, so
`npixels ≥ 13`. -/
lemma thirteen_le_npixels (p : Params) : 13 ≤ npixels p := by
  have hxc := two_le_xc p
  have hyc := two_le_yc p
  have hnx := nx_eq_two_xc_add_one p
  have hny := ny_eq_two_yc_add_one p
  have hinj : Function.Injective
      (fun d : ℕ × ℕ => (yc p - 2 + d.1, xc p - 2 + d.2)) := by
    rintro ⟨a1, b1⟩ ⟨a2, b2⟩ h
    simp only [Prod.mk.injEq] at h ⊢
    omega
  have hsub : ball13.image (fun d : ℕ × ℕ => (yc p - 2 + d.1, xc p - 2 + d.2))
      ⊆ grid p := by
    intro z hz
    obtain ⟨d, hd, rfl⟩ := Finset.mem_image.mp hz
    obtain ⟨hd5, -⟩ := Finset.mem_filter.mp hd
    rw [Finset.mem_product, Finset.mem_range, Finset.mem_range] at hd5
    unfold grid
    rw [Finset.mem_product, Finset.mem_range, Finset.mem_range]
    constructor <;> omega
  have hmask : ∀ z ∈ ball13.image
      (fun d : ℕ × ℕ => (yc p - 2 + d.1, xc p - 2 + d.2)),
      mask p z.1 z.2 = 1 := by
    intro z hz
    obtain ⟨d, hd, rfl⟩ := Finset.mem_image.mp hz
    obtain ⟨-, hdist⟩ := Finset.mem_filter.mp hd
    apply mask_of_close
    have hcx : ((xc p - 2 + d.2 : ℕ) : ℝ) = (xc p : ℝ) + ((d.2 : ℝ) - 2) := by
      rw [Nat.cast_add, Nat.cast_sub hxc]
      push_cast
      ring
    have hcy : ((yc p - 2 + d.1 : ℕ) : ℝ) = (yc p : ℝ) + ((d.1 : ℝ) - 2) := by
      rw [Nat.cast_add, Nat.cast_sub hyc]
      push_cast
      ring
    have hdist' : ((d.1 : ℝ) - 2) ^ 2 + ((d.2 : ℝ) - 2) ^ 2 ≤ 4 := by
      exact_mod_cast hdist
    dsimp only
    rw [hcx, hcy]
    ring_nf
    ring_nf at hdist'
    linarith
  rw [npixels_eq_sum_grid]
  calc (13 : ℕ)
      = (ball13.image (fun d : ℕ × ℕ => (yc p - 2 + d.1, xc p - 2 + d.2))).card := by
        rw [Finset.card_image_of_injective _ hinj, ball13_card]
    _ = ∑ _z ∈ ball13.image (fun d : ℕ × ℕ => (yc p - 2 + d.1, xc p - 2 + d.2)), 1 :=
        Finset.card_eq_sum_ones _
    _ = ∑ z ∈ ball13.image (fun d : ℕ × ℕ => (yc p - 2 + d.1, xc p - 2 + d.2)),
          mask p z.1 z.2 :=
        Finset.sum_congr rfl (fun z hz => ((hmask z hz).symm))
    _ ≤ ∑ z ∈ grid p, mask p z.1 z.2 := Finset.sum_le_sum_of_subset hsub

/-! ### Circular kernels: `ratio = 1` removes `theta` from the coefficients -/

lemma ysigma2_of_ratio_one {p : Params} (hr : p.ratio = 1) :
    ysigma2 p = xsigma2 p := by
  unfold ysigma2 ysigma xsigma2
  rw [hr]
  ring

lemma a_of_ratio_one {p : Params} (hr : p.ratio = 1) :
    a p = 1 / (2 * xsigma2 p) := by
  unfold a
  rw [ysigma2_of_ratio_one hr, div_add_div_same,
    add_comm (cost p ^ 2) (sint p ^ 2), sin2_add_cos2]

lemma b_of_ratio_one {p : Params} (hr : p.ratio = 1) : b p = 0 := by
  unfold b
  rw [ysigma2_of_ratio_one hr]
  ring

lemma c_of_ratio_one {p : Params} (hr : p.ratio = 1) :
    c p = 1 / (2 * xsigma2 p) := by
  unfold c
  rw [ysigma2_of_ratio_one hr, div_add_div_same, sin2_add_cos2]

/-- Every quantity the constructor computes depends on the parameters only
through `fwhm`, `ratio`, `sigma_radius`, `normalize_zerosum` and the ellipse
coefficients `a`, `b`, `c`. -/
lemma buildKernel_congr {p q : Params} (hfwhm : p.fwhm = q.fwhm)
    (hratio : p.ratio = q.ratio) (hsr : p.sigma_radius = q.sigma_radius)
    (hnz : p.normalize_zerosum = q.normalize_zerosum)
    (ha : a p = a q) (hb : b p = b q) (hc : c p = c q) :
    buildKernel p = buildKernel q := by
  have hX : xsigma2 p = xsigma2 q := by
    unfold xsigma2 xsigma
    rw [hfwhm]
  have hY : ysigma2 p = ysigma2 q := by
    unfold ysigma2 ysigma xsigma
    rw [hfwhm, hratio]
  have hF : f p = f q := by
    unfold f
    rw [hsr]
  have hd : ell_denom p = ell_denom q := by
    unfold ell_denom
    rw [ha, hb, hc]
  have hnx : nx p = nx q := by
    unfold nx
    rw [hc, hF, hd]
  have hny : ny p = ny q := by
    unfold ny
    rw [ha, hF, hd]
  have hxc : xc p = xc q := by
    unfold xc
    rw [hnx]
  have hyc : yc p = yc q := by
    unfold yc
    rw [hny]
  have hell : elliptical_radius p = elliptical_radius q := by
    funext y x
    unfold elliptical_radius
    rw [ha, hb, hc, hxc, hyc]
  have hcirc : circular_radius p = circular_radius q := by
    funext y x
    unfold circular_radius
    rw [hxc, hyc]
  have hm : mask p = mask q := by
    funext y x
    unfold mask
    rw [hell, hcirc, hF]
  have hnp : npixels p = npixels q := by
    unfold npixels
    rw [hny, hnx, hm]
  have hgu : gaussian_kernel_unmasked p = gaussian_kernel_unmasked q := by
    funext y x
    unfold gaussian_kernel_unmasked
    rw [hell]
  have hg : gaussian_kernel p = gaussian_kernel q := by
    funext y x
    unfold gaussian_kernel
    rw [hgu, hm]
  have hgs : gksum p = gksum q := by
    unfold gksum
    rw [hny, hnx, hg]
  have hgs2 : gk2sum p = gk2sum q := by
    unfold gk2sum
    rw [hny, hnx, hg]
  have hvd : var_denom p = var_denom q := by
    unfold var_denom
    rw [hgs2, hgs, hnp]
  have hrel : relerr p = relerr q := by
    unfold relerr
    rw [hvd]
  have hdata : data p = data q := by
    funext y x
    unfold data
    rw [hnz, hg, hgs, hnp, hvd, hm]
  have hmk : mkKernel p = mkKernel q := by
    unfold mkKernel
    rw [hnx, hny, hxc, hyc, hcirc, hell, hm, hnp, hgu, hg, hrel, hdata]
  unfold buildKernel
  rw [hfwhm, hratio, hsr, hX, hY, hmk]

/-! ### Concrete parameter sets used by the witnesses -/

/-- The concrete scenario `fwhm=3.0, ratio=1.0, theta=0.0, sigma_radius=1.5`
with the default zero-sum normalization. -/
def pDefault : Params := ⟨3, 1, 0, 3 / 2, true⟩

/-- Same as `pDefault` but with `theta = 45`. -/
def pTheta45 : Params := ⟨3, 1, 45, 3 / 2, true⟩

/-- Same as `pDefault` but with `normalize_zerosum = false`. -/
def pNoNorm : Params := ⟨3, 1, 0, 3 / 2, false⟩

/-- `fwhm = 0` with otherwise valid parameters: passes validation. -/
def pZeroFwhm : Params := ⟨0, 1, 0, 3 / 2, true⟩

/-- `fwhm = -1`: rejected by validation. -/
def pNegFwhm : Params := ⟨-1, 1, 0, 3 / 2, true⟩

/-! ### Pointwise values along the center row -/

lemma elliptical_radius_center_row (p : Params) (d : ℕ) :
    elliptical_radius p (yc p) (xc p + d) = a p * (d : ℝ) ^ 2 := by
  unfold elliptical_radius
  push_cast
  ring

lemma circular_radius_center_row (p : Params) (d : ℕ) :
    circular_radius p (yc p) (xc p + d) = (d : ℝ) := by
  unfold circular_radius
  have h1 : ((xc p + d : ℕ) : ℝ) - (xc p : ℝ) = (d : ℝ) := by
    push_cast
    ring
  have h2 : ((yc p : ℕ) : ℝ) - (yc p : ℝ) = 0 := by ring
  rw [h1, h2]
  rw [show (d : ℝ) ^ 2 + (0:ℝ) ^ 2 = (d : ℝ) ^ 2 by ring]
  exact Real.sqrt_sq (by positivity)

lemma log_two_pos : (0:ℝ) < Real.log 2 :=
  Real.log_pos (by norm_num)

lemma gaussian_fwhm_to_sigma_sq :
    gaussian_fwhm_to_sigma ^ 2 = 1 / (8 * Real.log 2) := by
  have h := log_two_pos
  unfold gaussian_fwhm_to_sigma
  rw [div_pow, mul_pow, Real.sq_sqrt (by positivity : (0:ℝ) ≤ 2 * Real.log 2)]
  ring

lemma xsigma2_pDefault : xsigma2 pDefault = 9 / (8 * Real.log 2) := by
  unfold xsigma2 xsigma
  rw [mul_pow, gaussian_fwhm_to_sigma_sq,
    show pDefault.fwhm = 3 from rfl]
  ring

/-- Three pixels to the right of the center, the pixel is outside the mask
for the `pDefault` parameters: its elliptical radius `9a = 4 ln 2` exceeds
`f = 9/8` and its circular radius is `3 > 2`. -/
lemma mask_pDefault_far : mask pDefault (yc pDefault) (xc pDefault + 3) = 0 := by
  have hL : (0.6931471803 : ℝ) < Real.log 2 := Real.log_two_gt_d9
  have hL0 := log_two_pos
  have hell : elliptical_radius pDefault (yc pDefault) (xc pDefault + 3)
      = 4 * Real.log 2 := by
    rw [elliptical_radius_center_row,
      a_of_ratio_one (show pDefault.ratio = 1 from rfl), xsigma2_pDefault]
    field_simp
    ring
  have hf' : f pDefault = 9 / 8 := by
    unfold f
    rw [show pDefault.sigma_radius = 3 / 2 from rfl]
    norm_num
  have hcirc := circular_radius_center_row pDefault 3
  have hnot : ¬ (elliptical_radius pDefault (yc pDefault) (xc pDefault + 3)
        ≤ f pDefault
      ∨ circular_radius pDefault (yc pDefault) (xc pDefault + 3) ≤ 2) := by
    push_neg
    constructor
    · rw [hell, hf']
      linarith
    · rw [hcirc]
      norm_num
  unfold mask
  rw [if_neg hnot]

/-! ### The claims -/

/-- Claim C1: for every parameter set for which construction succeeds with
`normalize_zerosum = true`, the returned data array
`(gaussian_kernel - sum(gaussian_kernel)/npixels) / variance_term * mask`
sums exactly to zero over the grid. -/
theorem claim_C1_zero_sum (p : Params) (k : Kernel)
    (hok : buildKernel p = .ok k) (hnz : p.normalize_zerosum = true) :
    ∑ y ∈ range k.ny, ∑ x ∈ range k.nx, k.data y x = 0 := by
  obtain ⟨-, -, rfl⟩ := buildKernel_ok_elim hok
  show ∑ y ∈ range (ny p), ∑ x ∈ range (nx p), data p y x = 0
  rw [data_sum_eq_sum_grid]
  exact data_sum_zero hnz

/-- Witness for C1 at `fwhm=3, ratio=1, theta=0, sigma_radius=3/2`. -/
theorem claim_C1_zero_sum_witness :
    ∑ y ∈ range (mkKernel pDefault).ny, ∑ x ∈ range (mkKernel pDefault).nx,
      (mkKernel pDefault).data y x = 0 :=
  claim_C1_zero_sum pDefault (mkKernel pDefault)
    (buildKernel_eq_ok (by norm_num [pDefault]) (by norm_num [pDefault])
      (by norm_num [pDefault]) (by norm_num [pDefault])) rfl

/-- Claim C2: whenever construction succeeds, `nx` and `ny` are odd, at
least 5, and given by the exact sequence `n = 2*floor(max(2, h)) + 1` with
half-extents `hx = sqrt(c*f/denom)` and `hy = sqrt(a*f/denom)`. -/
theorem claim_C2_grid_dims (p : Params) (k : Kernel)
    (hok : buildKernel p = .ok k) :
    Odd k.nx ∧ Odd k.ny ∧ 5 ≤ k.nx ∧ 5 ≤ k.ny
      ∧ k.nx = 2 * (⌊max 2 (Real.sqrt (c p * f p / ell_denom p))⌋).toNat + 1
      ∧ k.ny = 2 * (⌊max 2 (Real.sqrt (a p * f p / ell_denom p))⌋).toNat + 1 := by
  obtain ⟨-, -, rfl⟩ := buildKernel_ok_elim hok
  exact ⟨odd_nx p, odd_ny p, five_le_nx p, five_le_ny p, rfl, rfl⟩

/-- Witness for C2 at `pDefault`. -/
theorem claim_C2_grid_dims_witness :
    Odd (mkKernel pDefault).nx ∧ Odd (mkKernel pDefault).ny
      ∧ 5 ≤ (mkKernel pDefault).nx ∧ 5 ≤ (mkKernel pDefault).ny
      ∧ (mkKernel pDefault).nx
        = 2 * (⌊max 2 (Real.sqrt (c pDefault * f pDefault / ell_denom pDefault))⌋).toNat + 1
      ∧ (mkKernel pDefault).ny
        = 2 * (⌊max 2 (Real.sqrt (a pDefault * f pDefault / ell_denom pDefault))⌋).toNat + 1 :=
  claim_C2_grid_dims pDefault (mkKernel pDefault)
    (buildKernel_eq_ok (by norm_num [pDefault]) (by norm_num [pDefault])
      (by norm_num [pDefault]) (by norm_num [pDefault]))

/-- Claim C3, as stated, is false on the code: the source has no
`DegenerateKernelError` at all, and at `fwhm = 0` — the degenerate parameter
combination the spec itself names (a zero-width Gaussian, `xsigma2 = 0`) —
construction does not fail: the numpy `float64` divisions by zero only warn,
everything downstream is NaN (so the program's `denom` is `nan`, and the
degeneracy comparisons `<= 0` are all `False`), and `__init__` returns a
NaN-filled kernel object without raising anything. -/
theorem claim_C3_counterexample :
    validParams pZeroFwhm ∧ xsigma2 pZeroFwhm = 0
      ∧ buildKernel pZeroFwhm = .nanKernel
      ∧ buildKernel pZeroFwhm ≠ .error .degenerateKernel := by
  have hnan : buildKernel pZeroFwhm = .nanKernel :=
    buildKernel_fwhm_zero rfl (by norm_num [pZeroFwhm])
      (by norm_num [pZeroFwhm]) (by norm_num [pZeroFwhm])
  refine ⟨?_, ?_, hnan, ?_⟩
  · unfold validParams pZeroFwhm
    norm_num
  · unfold xsigma2 xsigma
    rw [show pZeroFwhm.fwhm = 0 from rfl]
    ring
  · rw [hnan]
    simp

/-- Claim C3 amended: the code never raises a `DegenerateKernelError` (it
defines no such error), and for every parameter set passing input validation
the degenerate situations the spec guards against cannot make it do so: for
`fwhm > 0` none of `denom ≤ 0`, `npixels ≤ 1`, `variance_term ≤ 0` occurs
(the discriminant, pixel count and variance term are strictly positive) and
construction returns the kernel; at `fwhm = 0` the derived width collapses
(`xsigma2 = 0`) and construction still completes — with a NaN-filled
payload, via numpy inf/nan propagation — rather than raising. -/
theorem claim_C3_amended (p : Params) (hv : validParams p) :
    (0 < p.fwhm → 0 < ell_denom p ∧ 1 < npixels p ∧ 0 < var_denom p
        ∧ buildKernel p = .ok (mkKernel p))
      ∧ (p.fwhm = 0 → xsigma2 p = 0 ∧ buildKernel p = .nanKernel)
      ∧ buildKernel p ≠ .error .degenerateKernel := by
  obtain ⟨hf0, hr0, hr1, hs⟩ := hv
  have hpos : 0 < p.fwhm → 0 < ell_denom p ∧ 1 < npixels p ∧ 0 < var_denom p
      ∧ buildKernel p = .ok (mkKernel p) := by
    intro hf
    refine ⟨ell_denom_pos hf hr0, ?_, var_denom_pos hf hr0,
      buildKernel_eq_ok hf hr0 hr1 hs⟩
    have := thirteen_le_npixels p
    omega
  have hzero : p.fwhm = 0 → xsigma2 p = 0 ∧ buildKernel p = .nanKernel := by
    intro hf
    constructor
    · unfold xsigma2 xsigma
      rw [hf]
      ring
    · exact buildKernel_fwhm_zero hf hr0 hr1 hs
  refine ⟨hpos, hzero, ?_⟩
  rcases lt_or_eq_of_le hf0 with hf | hf
  · rw [(hpos hf).2.2.2]
    simp
  · rw [(hzero hf.symm).2]
    simp

/-- Witness for the amended C3 at `pDefault`. -/
theorem claim_C3_amended_witness :
    0 < ell_denom pDefault ∧ 1 < npixels pDefault ∧ 0 < var_denom pDefault
      ∧ buildKernel pDefault = .ok (mkKernel pDefault) :=
  (claim_C3_amended pDefault (by unfold validParams pDefault; norm_num)).1
    (by norm_num [pDefault])

/-- Claim C4: construction raises a validation error naming the offending
field exactly when `fwhm < 0`, `ratio ≤ 0`, `ratio > 1` or
`sigma_radius ≤ 0`, and for every such input no kernel is produced. -/
theorem claim_C4_validation (p : Params) :
    (p.fwhm < 0 → buildKernel p = .error .valueError_fwhm)
    ∧ (0 ≤ p.fwhm → (p.ratio ≤ 0 ∨ 1 < p.ratio) →
        buildKernel p = .error .valueError_ratio)
    ∧ (0 ≤ p.fwhm → 0 < p.ratio → p.ratio ≤ 1 → p.sigma_radius ≤ 0 →
        buildKernel p = .error .valueError_sigma_radius)
    ∧ ((∃ e, buildKernel p = .error e
          ∧ (e = .valueError_fwhm ∨ e = .valueError_ratio
              ∨ e = .valueError_sigma_radius))
        ↔ (p.fwhm < 0 ∨ p.ratio ≤ 0 ∨ 1 < p.ratio ∨ p.sigma_radius ≤ 0))
    ∧ ((p.fwhm < 0 ∨ p.ratio ≤ 0 ∨ 1 < p.ratio ∨ p.sigma_radius ≤ 0) →
        ∀ k, buildKernel p ≠ .ok k) := by
  have himp1 : p.fwhm < 0 → buildKernel p = .error .valueError_fwhm := by
    intro h
    unfold buildKernel
    rw [if_pos h]
  have himp2 : 0 ≤ p.fwhm → (p.ratio ≤ 0 ∨ 1 < p.ratio) →
      buildKernel p = .error .valueError_ratio := by
    intro h0 h
    unfold buildKernel
    rw [if_neg (not_lt.mpr h0), if_pos h]
  have himp3 : 0 ≤ p.fwhm → 0 < p.ratio → p.ratio ≤ 1 → p.sigma_radius ≤ 0 →
      buildKernel p = .error .valueError_sigma_radius := by
    intro h0 hr0 hr1 h
    unfold buildKernel
    rw [if_neg (not_lt.mpr h0),
      if_neg (by push_neg; exact ⟨hr0, hr1⟩ :
        ¬ (p.ratio ≤ 0 ∨ 1 < p.ratio)), if_pos h]
  have hiff : (∃ e, buildKernel p = .error e
          ∧ (e = .valueError_fwhm ∨ e = .valueError_ratio
              ∨ e = .valueError_sigma_radius))
        ↔ (p.fwhm < 0 ∨ p.ratio ≤ 0 ∨ 1 < p.ratio ∨ p.sigma_radius ≤ 0) := by
    constructor
    · rintro ⟨e, he, hcase⟩
      by_contra hnot
      push_neg at hnot
      obtain ⟨h1, h2, h3, h4⟩ := hnot
      rcases lt_or_eq_of_le h1 with hf | hf
      · rw [buildKernel_eq_ok hf h2 h3 h4] at he
        exact absurd he (by simp)
      · rw [buildKernel_fwhm_zero hf.symm h2 h3 h4] at he
        exact absurd he (by simp)
    · intro h
      by_cases hf : p.fwhm < 0
      · exact ⟨.valueError_fwhm, himp1 hf, Or.inl rfl⟩
      · by_cases hr : p.ratio ≤ 0 ∨ 1 < p.ratio
        · exact ⟨.valueError_ratio, himp2 (not_lt.mp hf) hr, Or.inr (Or.inl rfl)⟩
        · push_neg at hr
          have hs : p.sigma_radius ≤ 0 := by
            rcases h with h | h | h | h
            · exact absurd h hf
            · exact absurd h (not_le.mpr hr.1)
            · exact absurd h (not_lt.mpr hr.2)
            · exact h
          exact ⟨.valueError_sigma_radius,
            himp3 (not_lt.mp hf) hr.1 hr.2 hs, Or.inr (Or.inr rfl)⟩
  refine ⟨himp1, himp2, himp3, hiff, ?_⟩
  intro h k hk
  obtain ⟨e, he, -⟩ := hiff.mpr h
  rw [hk] at he
  exact absurd he (by simp)

/-- Witness for C4 at `fwhm = -1`. -/
theorem claim_C4_validation_witness :
    buildKernel pNegFwhm = .error .valueError_fwhm :=
  (claim_C4_validation pNegFwhm).1 (by norm_num [pNegFwhm])

/-- Claim C5: whenever construction succeeds, the center pixel
`(yc, xc) = (ny//2, nx//2)` of `gaussian_kernel_unmasked` is exactly 1. -/
theorem claim_C5_center_pixel (p : Params) (k : Kernel)
    (hok : buildKernel p = .ok k) :
    k.gaussian_kernel_unmasked k.yc k.xc = 1
      ∧ k.yc = k.ny / 2 ∧ k.xc = k.nx / 2 := by
  obtain ⟨-, -, rfl⟩ := buildKernel_ok_elim hok
  exact ⟨gaussian_kernel_unmasked_center p, rfl, rfl⟩

/-- Witness for C5 at `pDefault`. -/
theorem claim_C5_center_pixel_witness :
    (mkKernel pDefault).gaussian_kernel_unmasked (mkKernel pDefault).yc
        (mkKernel pDefault).xc = 1
      ∧ (mkKernel pDefault).yc = (mkKernel pDefault).ny / 2
      ∧ (mkKernel pDefault).xc = (mkKernel pDefault).nx / 2 :=
  claim_C5_center_pixel pDefault (mkKernel pDefault)
    (buildKernel_eq_ok (by norm_num [pDefault]) (by norm_num [pDefault])
      (by norm_num [pDefault]) (by norm_num [pDefault]))

/-- Claim C6: whenever construction succeeds — for either value of
`normalize_zerosum` — `data` is exactly 0 at every pixel where the mask
is 0. -/
theorem claim_C6_data_zero_outside_mask (p : Params) (k : Kernel)
    (hok : buildKernel p = .ok k) (y x : ℕ) (hm : k.mask y x = 0) :
    k.data y x = 0 := by
  obtain ⟨-, -, rfl⟩ := buildKernel_ok_elim hok
  have hm' : mask p y x = 0 := hm
  show data p y x = 0
  unfold data
  split
  · rw [hm']
    norm_num
  · unfold gaussian_kernel
    rw [hm']
    norm_num

/-- Witness for C6 at `pDefault`, at the pixel three to the right of the
center, which is outside the mask. -/
theorem claim_C6_data_zero_outside_mask_witness :
    (mkKernel pDefault).data (yc pDefault) (xc pDefault + 3) = 0 :=
  claim_C6_data_zero_outside_mask pDefault (mkKernel pDefault)
    (buildKernel_eq_ok (by norm_num [pDefault]) (by norm_num [pDefault])
      (by norm_num [pDefault]) (by norm_num [pDefault]))
    (yc pDefault) (xc pDefault + 3) mask_pDefault_far

/-- Claim C7: for `ratio = 1`, `theta` has no effect — two parameter sets
equal except for `theta` produce identical construction results. -/
theorem claim_C7_theta_invariance (p q : Params) (hp : p.ratio = 1)
    (hq : q.ratio = 1) (hfwhm : p.fwhm = q.fwhm)
    (hsr : p.sigma_radius = q.sigma_radius)
    (hnz : p.normalize_zerosum = q.normalize_zerosum) :
    buildKernel p = buildKernel q := by
  have hX : xsigma2 p = xsigma2 q := by
    unfold xsigma2 xsigma
    rw [hfwhm]
  refine buildKernel_congr hfwhm (hp.trans hq.symm) hsr hnz ?_ ?_ ?_
  · rw [a_of_ratio_one hp, a_of_ratio_one hq, hX]
  · rw [b_of_ratio_one hp, b_of_ratio_one hq]
  · rw [c_of_ratio_one hp, c_of_ratio_one hq, hX]

/-- Witness for C7: `theta = 0` and `theta = 45` at `fwhm=3, ratio=1`. -/
theorem claim_C7_theta_invariance_witness :
    buildKernel pDefault = buildKernel pTheta45 :=
  claim_C7_theta_invariance pDefault pTheta45 rfl rfl rfl rfl rfl

/-- Claim C8: with `normalize_zerosum = false`, the returned data array is
exactly `gaussian_kernel`, i.e. `gaussian_kernel_unmasked * mask`, with no
rescaling. -/
theorem claim_C8_no_normalization (p : Params) (k : Kernel)
    (hok : buildKernel p = .ok k) (hnz : p.normalize_zerosum = false)
    (y x : ℕ) :
    k.data y x = k.gaussian_kernel y x
      ∧ k.gaussian_kernel y x
        = k.gaussian_kernel_unmasked y x * (k.mask y x : ℝ) := by
  obtain ⟨-, -, rfl⟩ := buildKernel_ok_elim hok
  refine ⟨?_, rfl⟩
  show data p y x = gaussian_kernel p y x
  unfold data
  rw [if_neg (by rw [hnz]; simp : ¬ p.normalize_zerosum = true)]

/-- Witness for C8 at `pNoNorm`, pixel `(0, 0)`. -/
theorem claim_C8_no_normalization_witness :
    (mkKernel pNoNorm).data 0 0 = (mkKernel pNoNorm).gaussian_kernel 0 0
      ∧ (mkKernel pNoNorm).gaussian_kernel 0 0
        = (mkKernel pNoNorm).gaussian_kernel_unmasked 0 0
          * ((mkKernel pNoNorm).mask 0 0 : ℝ) :=
  claim_C8_no_normalization pNoNorm (mkKernel pNoNorm)
    (buildKernel_eq_ok (by norm_num [pNoNorm]) (by norm_num [pNoNorm])
      (by norm_num [pNoNorm]) (by norm_num [pNoNorm])) rfl 0 0

/-- Claim C9, as stated, is false on the code: at `fwhm = 0` validation does
pass and the coefficient computation does divide by `2*xsigma2 = 0`, but the
scalars are numpy `float64`, whose division by zero emits a warning and
yields `inf`/`nan` — numpy never raises `ZeroDivisionError` — so
construction does not fail: `__init__` completes and returns a NaN-filled
kernel. -/
theorem claim_C9_counterexample :
    validParams pZeroFwhm ∧ 2 * xsigma2 pZeroFwhm = 0
      ∧ buildKernel pZeroFwhm = .nanKernel
      ∧ buildKernel pZeroFwhm ≠ .error .zeroDivisionError := by
  have hnan : buildKernel pZeroFwhm = .nanKernel :=
    buildKernel_fwhm_zero rfl (by norm_num [pZeroFwhm])
      (by norm_num [pZeroFwhm]) (by norm_num [pZeroFwhm])
  refine ⟨?_, ?_, hnan, ?_⟩
  · unfold validParams pZeroFwhm
    norm_num
  · unfold xsigma2 xsigma
    rw [show pZeroFwhm.fwhm = 0 from rfl]
    ring
  · rw [hnan]
    simp

/-- Claim C9 amended: for `fwhm = 0` and otherwise valid parameters,
input validation passes (only `fwhm < 0` is rejected) and the computation of
the quadratic-form coefficients divides by `2*xsigma2 = 0`; but because the
scalars are numpy `float64`, the division by zero only warns and propagates
`inf`/`nan`, so no exception — neither a division error nor a
parameter-validation error — is raised: construction completes, returning a
kernel whose floating-point payload is NaN. -/
theorem claim_C9_fwhm_zero_nan (p : Params) (hf : p.fwhm = 0)
    (hr0 : 0 < p.ratio) (hr1 : p.ratio ≤ 1) (hs : 0 < p.sigma_radius) :
    2 * xsigma2 p = 0 ∧ buildKernel p = .nanKernel
      ∧ ∀ e, buildKernel p ≠ .error e := by
  have h := buildKernel_fwhm_zero hf hr0 hr1 hs
  refine ⟨?_, h, ?_⟩
  · unfold xsigma2 xsigma
    rw [hf]
    ring
  · intro e he
    rw [h] at he
    exact absurd he (by simp)

/-- Witness for the amended C9 at `pZeroFwhm`. -/
theorem claim_C9_fwhm_zero_nan_witness :
    buildKernel pZeroFwhm = .nanKernel :=
  (claim_C9_fwhm_zero_nan pZeroFwhm rfl (by norm_num [pZeroFwhm])
    (by norm_num [pZeroFwhm]) (by norm_num [pZeroFwhm])).2.1

/-- Claim C10: whenever construction succeeds, every pixel within circular
radius 2 of the center is in the mask, and `npixels ≥ 13`. -/
theorem claim_C10_mask_core (p : Params) (k : Kernel)
    (hok : buildKernel p = .ok k) :
    (∀ y x, k.circular_radius y x ≤ 2 → k.mask y x = 1)
      ∧ 13 ≤ k.npixels := by
  obtain ⟨-, -, rfl⟩ := buildKernel_ok_elim hok
  constructor
  · intro y x h
    have h' : circular_radius p y x ≤ 2 := h
    show mask p y x = 1
    unfold mask
    rw [if_pos (Or.inr h')]
  · exact thirteen_le_npixels p

/-- Witness for C10 at `pDefault`. -/
theorem claim_C10_mask_core_witness :
    13 ≤ (mkKernel pDefault).npixels :=
  (claim_C10_mask_core pDefault (mkKernel pDefault)
    (buildKernel_eq_ok (by norm_num [pDefault]) (by norm_num [pDefault])
      (by norm_num [pDefault]) (by norm_num [pDefault]))).2

end

end Photutils
